import Mathlib

/-!
Verification of the envkeep core (snapshot parser, type normalizer,
variable/environment specification, diff engine, report accumulators)
against its natural-language specification.  The Python source in
`src/envkeep/` is shallowly embedded below: pure functions become Lean
functions on `List Char` / `String`, Python `dict`s become insertion-ordered
association lists with last-write-wins update, and a raised `ValueError`
becomes `Option.none`.  The `while` loops of the parser additionally get a
fuel-indexed variant so that their termination is a provable statement
rather than a side effect of the embedding.
-/

namespace Envkeep

/-! ## Python string primitives -/

/-- Characters treated as whitespace by Python's `str.strip` and by `\s` in
`re` patterns over `str`: the ASCII whitespace characters together with the
Unicode space characters.  -/
def py_is_space (c : Char) : Bool :=
  let n := c.toNat
  n = 0x20 || n = 0x9 || n = 0xa || n = 0xd || n = 0xb || n = 0xc ||
  (Nat.ble 0x1c n && Nat.ble n 0x1f) || n = 0x85 || n = 0xa0 || n = 0x1680 ||
  (Nat.ble 0x2000 n && Nat.ble n 0x200a) || n = 0x2028 || n = 0x2029 ||
  n = 0x202f || n = 0x205f || n = 0x3000

/-- Python `str.strip()` on a list of characters. -/
def py_strip (l : List Char) : List Char :=
  ((l.dropWhile py_is_space).reverse.dropWhile py_is_space).reverse

/-- Python `str.rstrip()` on a list of characters. -/
def py_rstrip (l : List Char) : List Char :=
  (l.reverse.dropWhile py_is_space).reverse

/-- Python `str.rstrip("\n")` on a list of characters. -/
def rstrip_nl (l : List Char) : List Char :=
  (l.reverse.dropWhile (· = '\n')).reverse

/-- Python `str.strip()` on a `String`. -/
def py_strip_s (s : String) : String := String.mk (py_strip s.toList)

/-- Line-boundary characters of Python `str.splitlines`. -/
def is_line_break (c : Char) : Bool :=
  let n := c.toNat
  n = 0xa || n = 0xd || n = 0xb || n = 0xc || n = 0x1c || n = 0x1d ||
  n = 0x1e || n = 0x85 || n = 0x2028 || n = 0x2029

/-- Worker for `py_splitlines`; `acc` holds the current line reversed. -/
def py_splitlines_aux (acc : List Char) : List Char → List (List Char)
  | [] => if acc.isEmpty then [] else [acc.reverse]
  | '\r' :: '\n' :: rest => acc.reverse :: py_splitlines_aux [] rest
  | c :: rest =>
      if is_line_break c then acc.reverse :: py_splitlines_aux [] rest
      else py_splitlines_aux (c :: acc) rest

/-- Python `str.splitlines()`: split at line boundaries (with `\r\n` counting
as a single boundary), no trailing empty line. -/
def py_splitlines (l : List Char) : List (List Char) := py_splitlines_aux [] l

/-- `utils.strip_bom`: remove one leading U+FEFF. -/
def strip_bom_chars : List Char → List Char
  | [] => []
  | c :: rest => if c = '\uFEFF' then rest else c :: rest

/-- ASCII fragment of Python `str.lower` / `str.casefold` (the inputs
exercised by the claims are ASCII). -/
def py_lower (s : String) : String := String.mk (s.toList.map Char.toLower)

/-- ASCII fragment of Python `str.casefold` (the inputs exercised by the
claims are ASCII). -/
def py_casefold (s : String) : String := py_lower s

/-! ## Insertion-ordered dictionaries (`dict` semantics) -/

/-- `dict` update: an existing key keeps its position and gets the new value,
a new key is appended. -/
def dict_insert : List (String × α) → String → α → List (String × α)
  | [], k, v => [(k, v)]
  | (k', v') :: rest, k, v =>
      if k' = k then (k, v) :: rest else (k', v') :: dict_insert rest k v

/-- `dict` lookup. -/
def dict_get : List (String × α) → String → Option α
  | [], _ => none
  | (k', v') :: rest, k => if k' = k then some v' else dict_get rest k

/-- `key in dict`. -/
def contains_key (m : List (String × α)) (k : String) : Bool :=
  (dict_get m k).isSome

/-! ## Snapshot parser (`snapshot.py`) -/

/-- One entry of `_UNESCAPE_MAP`. -/
def unescape_map (c : Char) : Option Char :=
  if c = 'n' then some '\n'
  else if c = 'r' then some '\r'
  else if c = 't' then some '\t'
  else if c = '"' then some '"'
  else if c = '\'' then some '\''
  else if c = '\\' then some '\\'
  else if c = '#' then some '#'
  else none

/-- `_unescape`: two-character escape units are decoded via `unescape_map`;
an unrecognised escape keeps its backslash; a trailing lone backslash is
kept. -/
def unescape_chars : List Char → List Char
  | [] => []
  | [c] => [c]
  | c :: c2 :: rest =>
      if c = '\\' then
        match unescape_map c2 with
        | some r => r :: unescape_chars rest
        | none => '\\' :: c2 :: unescape_chars rest
      else c :: unescape_chars (c2 :: rest)

/-- The scanning `while` loop of `_sanitize_value` for a quoted value:
returns the collected buffer (escape pairs kept verbatim), the characters
after the closing quote, and whether the quote was closed. -/
def scan_quoted (q : Char) : List Char → List Char × List Char × Bool
  | [] => ([], [], false)
  | [c] =>
      if c = '\\' then (['\\'], [], false)
      else if c = q then ([], [], true)
      else ([c], [], false)
  | c :: c2 :: rest =>
      if c = '\\' then
        let r := scan_quoted q rest
        (c :: c2 :: r.1, r.2)
      else if c = q then ([], c2 :: rest, true)
      else
        let r := scan_quoted q (c2 :: rest)
        (c :: r.1, r.2)

/-- The character scan of `_strip_inline_comment`: index of the first
unescaped `#` outside quotes, if any. -/
def find_hash (inS inD esc : Bool) : List Char → Option Nat
  | [] => none
  | c :: rest =>
      if esc then (find_hash inS inD false rest).map (· + 1)
      else if c = '\\' then (find_hash inS inD true rest).map (· + 1)
      else if c = '\'' && !inD then (find_hash (!inS) inD false rest).map (· + 1)
      else if c = '"' && !inS then (find_hash inS (!inD) false rest).map (· + 1)
      else if c = '#' && !inS && !inD then some 0
      else (find_hash inS inD false rest).map (· + 1)

/-- `_strip_inline_comment`. -/
def strip_inline_comment (v : List Char) : List Char :=
  match find_hash false false false v with
  | some i => py_rstrip (v.take i)
  | none => py_rstrip v

/-- `_sanitize_value`; `none` models the `return None` for an unclosed
quote. -/
def sanitize_value (value : List Char) : Option (List Char) :=
  let trimmed := py_strip value
  match trimmed with
  | [] => some []
  | c :: rest =>
      if c = '"' || c = '\'' then
        let r := scan_quoted c rest
        if !r.2.2 then none
        else
          let remainder := py_strip r.2.1
          match remainder with
          | [] => some r.1
          | r1 :: _ =>
              if r1 = '#' then some r.1
              else
                let rem2 := strip_inline_comment remainder
                if rem2.isEmpty then some r.1 else some (r.1 ++ ' ' :: rem2)
      else some (strip_inline_comment trimmed)

/-- First character of `[A-Za-z_]`. -/
def is_key_start (c : Char) : Bool := c.isAlpha || c = '_'

/-- Subsequent characters `[A-Za-z0-9_]`. -/
def is_key_char (c : Char) : Bool := c.isAlpha || c.isDigit || c = '_'

/-- The `KEY\s*=\s*VALUE` part of `_ENV_LINE_RE`. -/
def match_after_key (s : List Char) : Option (List Char × List Char) :=
  match s with
  | [] => none
  | c :: rest =>
      if is_key_start c then
        let key := c :: rest.takeWhile is_key_char
        match (rest.dropWhile is_key_char).dropWhile py_is_space with
        | '=' :: rest3 => some (key, rest3.dropWhile py_is_space)
        | _ => none
      else none

/-- `_ENV_LINE_RE.match`: the optional `export\s+` prefix is tried first and
the bare `KEY=VALUE` shape is the backtracking fallback. -/
def match_env_line (s : List Char) : Option (List Char × List Char) :=
  match s with
  | 'e' :: 'x' :: 'p' :: 'o' :: 'r' :: 't' :: c :: rest =>
      if py_is_space c then
        match match_after_key (rest.dropWhile py_is_space) with
        | some r => some r
        | none => match_after_key s
      else match_after_key s
  | _ => match_after_key s

/-- `_parse_line`. -/
def parse_line (line : List Char) : Option (List Char × List Char) :=
  let stripped := py_strip line
  if stripped.isEmpty then none
  else if stripped.head? = some '#' then none
  else
    match match_env_line stripped with
    | none => none
    | some (k, v) =>
        match sanitize_value v with
        | none => none
        | some processed => some (k, unescape_chars processed)

/-- Result triple of `_parse_env`. -/
structure ParseResult where
  values : List (String × String)
  duplicates : List String
  invalid : List (Nat × String)
deriving Repr, DecidableEq

/-- Loop body of `_parse_env` for one `(line_number, line)` pair. -/
def parse_step (acc : ParseResult) (p : Nat × List Char) : ParseResult :=
  match parse_line p.2 with
  | none =>
      let s := py_strip p.2
      if !s.isEmpty && !(s.head? = some '#') then
        { acc with invalid := acc.invalid ++ [(p.1, String.mk (rstrip_nl p.2))] }
      else acc
  | some (k, v) =>
      let key := String.mk k
      { values := dict_insert acc.values key (String.mk v)
        duplicates :=
          if contains_key acc.values key then acc.duplicates ++ [key]
          else acc.duplicates
        invalid := acc.invalid }

/-- `_parse_env`. -/
def parse_env (raw : String) : ParseResult :=
  let lines := py_splitlines (strip_bom_chars raw.toList)
  (lines.enumFrom 1).foldl parse_step ⟨[], [], []⟩

/-- `EnvSnapshot`. -/
structure EnvSnapshot where
  values : List (String × String)
  source : String
  duplicates : List String := []
  invalid_lines : List (Nat × String) := []

/-- `EnvSnapshot.get`. -/
def EnvSnapshot.get (s : EnvSnapshot) (k : String) : Option String :=
  dict_get s.values k

/-- `EnvSnapshot.keys` (a `dict` iterates its keys in insertion order). -/
def EnvSnapshot.keys (s : EnvSnapshot) : List String := s.values.map Prod.fst

/-- Order-preserving deduplication used by `EnvSnapshot.duplicate_keys`. -/
def dedup_keep_order (seen : List String) : List String → List String
  | [] => []
  | k :: rest =>
      if seen.contains k then dedup_keep_order seen rest
      else k :: dedup_keep_order (k :: seen) rest

/-- `EnvSnapshot.duplicate_keys`. -/
def EnvSnapshot.duplicate_keys (s : EnvSnapshot) : List String :=
  dedup_keep_order [] s.duplicates

/-- `EnvSnapshot.malformed_lines`. -/
def EnvSnapshot.malformed_lines (s : EnvSnapshot) : List (Nat × String) :=
  s.invalid_lines

/-- `EnvSnapshot.from_text`. -/
def from_text (raw : String) (source : String) : EnvSnapshot :=
  let r := parse_env raw
  ⟨r.values, source, r.duplicates, r.invalid⟩

/-! ## Fuel-indexed parser loops

The two `while` loops of `snapshot.py` re-expressed with an explicit
iteration budget; `none` means the budget was exhausted.  The claim about
parser totality is the statement that the budget `length of the remaining
input` always suffices and that the fueled parser agrees with the total
embedding above. -/

/-- Fueled form of the quoted-value scanning loop of `_sanitize_value`. -/
def scan_quoted_f (q : Char) : Nat → List Char → Option (List Char × List Char × Bool)
  | _, [] => some ([], [], false)
  | 0, _ :: _ => none
  | _ + 1, [c] =>
      if c = '\\' then some (['\\'], [], false)
      else if c = q then some ([], [], true)
      else some ([c], [], false)
  | fuel + 1, c :: c2 :: rest =>
      if c = '\\' then
        (scan_quoted_f q fuel rest).map (fun r => (c :: c2 :: r.1, r.2))
      else if c = q then some ([], c2 :: rest, true)
      else (scan_quoted_f q fuel (c2 :: rest)).map (fun r => (c :: r.1, r.2))

/-- Fueled form of the `while` loop of `_unescape`. -/
def unescape_f : Nat → List Char → Option (List Char)
  | _, [] => some []
  | 0, _ :: _ => none
  | _ + 1, [c] => some [c]
  | fuel + 1, c :: c2 :: rest =>
      if c = '\\' then
        match unescape_map c2 with
        | some r => (unescape_f fuel rest).map (r :: ·)
        | none => (unescape_f fuel rest).map (fun l => '\\' :: c2 :: l)
      else (unescape_f fuel (c2 :: rest)).map (c :: ·)

/-- `_sanitize_value` with the fueled scan; the outer `Option` is fuel
exhaustion, the inner one is the `return None` of the source. -/
def sanitize_value_f (value : List Char) : Option (Option (List Char)) :=
  let trimmed := py_strip value
  match trimmed with
  | [] => some (some [])
  | c :: rest =>
      if c = '"' || c = '\'' then
        match scan_quoted_f c rest.length rest with
        | none => none
        | some r =>
            if !r.2.2 then some none
            else
              let remainder := py_strip r.2.1
              match remainder with
              | [] => some (some r.1)
              | r1 :: _ =>
                  if r1 = '#' then some (some r.1)
                  else
                    let rem2 := strip_inline_comment remainder
                    if rem2.isEmpty then some (some r.1)
                    else some (some (r.1 ++ ' ' :: rem2))
      else some (some (strip_inline_comment trimmed))

/-- `_parse_line` with the fueled loops. -/
def parse_line_f (line : List Char) : Option (Option (List Char × List Char)) :=
  let stripped := py_strip line
  if stripped.isEmpty then some none
  else if stripped.head? = some '#' then some none
  else
    match match_env_line stripped with
    | none => some none
    | some (k, v) =>
        match sanitize_value_f v with
        | none => none
        | some none => some none
        | some (some processed) =>
            (unescape_f processed.length processed).map (fun u => some (k, u))

/-- Loop body of `_parse_env` with the fueled `_parse_line`. -/
def parse_step_f (acc : ParseResult) (p : Nat × List Char) : Option ParseResult :=
  match parse_line_f p.2 with
  | none => none
  | some none =>
      let s := py_strip p.2
      if !s.isEmpty && !(s.head? = some '#') then
        some { acc with invalid := acc.invalid ++ [(p.1, String.mk (rstrip_nl p.2))] }
      else some acc
  | some (some (k, v)) =>
      let key := String.mk k
      some
        { values := dict_insert acc.values key (String.mk v)
          duplicates :=
            if contains_key acc.values key then acc.duplicates ++ [key]
            else acc.duplicates
          invalid := acc.invalid }

/-- `_parse_env` with the fueled loops. -/
def parse_env_f (raw : String) : Option ParseResult :=
  let lines := py_splitlines (strip_bom_chars raw.toList)
  (lines.enumFrom 1).foldlM parse_step_f ⟨[], [], []⟩

/-! ## Type normalizer (`spec.py`, `VariableType`) -/

/-- The eight closed type variants. -/
inductive VariableType where
  | STRING
  | INT
  | FLOAT
  | BOOL
  | URL
  | PATH
  | JSON
  | LIST
deriving Repr, DecidableEq

/-- The normalizers that call into the Python standard library
(`float`/`format`, `urllib.parse.urlparse`, `pathlib.Path`, `json`).
Their internals are outside the translated code, so the development is
parameterized over them: every theorem below holds for every
instantiation, in particular for the real library behaviour. -/
structure ExtNorm where
  float_norm : String → Option String
  url_norm : String → Option String
  path_norm : String → Option String
  json_norm : String → Option String

/-- Digit run of the Python integer literal parser: underscores are
allowed only between digits. -/
def digits_rest : List Char → Option (List Char)
  | [] => some []
  | '_' :: c :: rest =>
      if c.isDigit then (digits_rest rest).map (c :: ·) else none
  | ['_'] => none
  | c :: rest => if c.isDigit then (digits_rest rest).map (c :: ·) else none

/-- Nonempty digit run (with underscore placement rules). -/
def py_int_digits (l : List Char) : Option (List Char) :=
  match l with
  | [] => none
  | c :: _ => if c.isDigit then digits_rest l else none

/-- Numeric value of an ASCII digit. -/
def char_digit_val (c : Char) : Nat := c.toNat - '0'.toNat

/-- Value of a digit run. -/
def digits_to_nat (l : List Char) : Nat :=
  l.foldl (fun a c => 10 * a + char_digit_val c) 0

/-- Python `int(raw, 10)`: optional sign, digits with underscores,
surrounding whitespace allowed.  Only ASCII digits are modelled (CPython
additionally accepts other Unicode decimal digits). -/
def py_int_parse (s : String) : Option Int :=
  let l := py_strip s.toList
  match l with
  | '+' :: rest => (py_int_digits rest).map (fun d => (digits_to_nat d : Int))
  | '-' :: rest => (py_int_digits rest).map (fun d => -(digits_to_nat d : Int))
  | _ => (py_int_digits l).map (fun d => (digits_to_nat d : Int))

/-- Python `str` on an int (the canonical form of `_normalize_int`). -/
def int_str (n : Int) : String := toString n

/-- `_normalize_bool`.  `str.lower` is modelled on its ASCII fragment. -/
def py_bool_norm (raw : String) : Option String :=
  let lowered := py_lower raw
  if lowered = "1" || lowered = "true" || lowered = "on" || lowered = "yes" then
    some "true"
  else if lowered = "0" || lowered = "false" || lowered = "off" || lowered = "no" then
    some "false"
  else none

/-- Python `str.split(",")`. -/
def split_on_comma_aux (acc : List Char) : List Char → List (List Char)
  | [] => [acc.reverse]
  | ',' :: rest => acc.reverse :: split_on_comma_aux [] rest
  | c :: rest => split_on_comma_aux (c :: acc) rest

/-- Python `str.split(",")`. -/
def split_on_comma (l : List Char) : List (List Char) := split_on_comma_aux [] l

/-- `_normalize_list`: split on commas, strip the items, drop the empty
ones, join with commas. -/
def py_list_norm (raw : List Char) : List Char :=
  let items := ((split_on_comma raw).map py_strip).filter (fun i => !i.isEmpty)
  List.intercalate [','] items

/-- `VariableType.default_example`. -/
def default_example : VariableType → String
  | .STRING => "value"
  | .INT => "42"
  | .FLOAT => "3.14"
  | .BOOL => "true"
  | .URL => "https://example.com"
  | .PATH => "/var/app/data"
  | .JSON => "\x7b\"key\": \"value\"\x7d"
  | .LIST => "value1,value2"

/-- `VariableType.normalize`: strip the raw value, then dispatch on the
variant; `none` models the raised `ValueError`. -/
def vt_normalize (E : ExtNorm) (t : VariableType) (raw : String) : Option String :=
  let stripped := py_strip_s raw
  match t with
  | .STRING => some stripped
  | .INT => (py_int_parse stripped).map int_str
  | .FLOAT => E.float_norm stripped
  | .BOOL => py_bool_norm stripped
  | .URL => E.url_norm stripped
  | .PATH => E.path_norm stripped
  | .JSON => E.json_norm stripped
  | .LIST => some (String.mk (py_list_norm stripped.toList))

/-! ## Variable specification (`spec.py`, `VariableSpec`) -/

/-- Values of `float(normalized)` relevant to the numeric range check. -/
inductive PyFloatVal where
  | finite (q : ℚ)
  | pinf
  | ninf
  | nan
deriving DecidableEq

/-- Consume a run of ASCII digits, returning value, count and rest. -/
def dec_digits_aux (acc : Nat) (cnt : Nat) : List Char → Nat × Nat × List Char
  | [] => (acc, cnt, [])
  | c :: rest =>
      if c.isDigit then dec_digits_aux (10 * acc + char_digit_val c) (cnt + 1) rest
      else (acc, cnt, c :: rest)

/-- Exact reading of an unsigned decimal/scientific literal. -/
def dec_value_unsigned (l : List Char) : Option ℚ :=
  let ir := dec_digits_aux 0 0 l
  let fr := match ir.2.2 with
    | '.' :: r => dec_digits_aux 0 0 r
    | l' => (0, 0, l')
  if ir.2.1 = 0 && fr.2.1 = 0 then none
  else
    let mant : ℚ := (ir.1 : ℚ) + (fr.1 : ℚ) / ((10 : ℚ) ^ fr.2.1)
    match fr.2.2 with
    | [] => some mant
    | 'e' :: r =>
        match (match r with
               | '-' :: r2 => (dec_digits_aux 0 0 r2).2.1 |> fun c =>
                   ((dec_digits_aux 0 0 r2).1, c, (dec_digits_aux 0 0 r2).2.2, true)
               | '+' :: r2 => ((dec_digits_aux 0 0 r2).1, (dec_digits_aux 0 0 r2).2.1,
                   (dec_digits_aux 0 0 r2).2.2, false)
               | r2 => ((dec_digits_aux 0 0 r2).1, (dec_digits_aux 0 0 r2).2.1,
                   (dec_digits_aux 0 0 r2).2.2, false)) with
        | (ev, ec, rest, neg) =>
            if ec = 0 || !rest.isEmpty then none
            else if neg then some (mant / ((10 : ℚ) ^ ev))
            else some (mant * ((10 : ℚ) ^ ev))
    | _ => none

/-- Exact model of `float(s)` for the strings reaching the range check:
sign, finite decimal/scientific literals, `inf`/`infinity`/`nan`.  The
binary64 rounding of CPython is modelled by the exact decimal value (the
strings compared in the source are canonical outputs, where the
difference is below the 6-significant-digit granularity). -/
def py_float_val (s : String) : Option PyFloatVal :=
  let l := (py_strip s.toList).map Char.toLower
  let (neg, l) : Bool × List Char := match l with
    | '-' :: r => (true, r)
    | '+' :: r => (false, r)
    | _ => (false, l)
  if l = "inf".toList || l = "infinity".toList then
    some (if neg then .ninf else .pinf)
  else if l = "nan".toList then some .nan
  else
    (dec_value_unsigned l).map (fun q => .finite (if neg then -q else q))

/-- `float(normalized) < bound` (`nan` compares false). -/
def py_val_lt (v : PyFloatVal) (bound : ℚ) : Bool :=
  match v with
  | .finite q => decide (q < bound)
  | .pinf => false
  | .ninf => true
  | .nan => false

/-- `float(normalized) > bound` (`nan` compares false). -/
def py_val_gt (v : PyFloatVal) (bound : ℚ) : Bool :=
  match v with
  | .finite q => decide (bound < q)
  | .pinf => true
  | .ninf => false
  | .nan => false

/-- `VariableSpec`.  The compiled regex pattern and the custom validator
callables are modelled as boolean-valued functions (`false` = the
`ValueError` raised by a failed `fullmatch`/validator). -/
structure VariableSpec where
  name : String
  var_type : VariableType
  required : Bool := true
  default : Option String := none
  description : Option String := none
  secret : Bool := false
  choices : List String := []
  pattern : Option (String → Bool) := none
  example_ : Option String := none
  allow_empty : Bool := false
  source : Option String := none
  min_length : Option Nat := none
  max_length : Option Nat := none
  min_value : Option ℚ := none
  max_value : Option ℚ := none
  validators : List (String → Bool) := []

/-- `_validate_value_range` (applied to int/float variables only). -/
def value_out_of_range (vs : VariableSpec) (normalized : String) : Bool :=
  if vs.var_type = .INT || vs.var_type = .FLOAT then
    (match vs.min_value, py_float_val normalized with
     | some m, some v => py_val_lt v m
     | _, _ => false) ||
    (match vs.max_value, py_float_val normalized with
     | some m, some v => py_val_gt v m
     | _, _ => false)
  else false

/-- `VariableSpec.validate`: empty check, type normalization, custom
validators, choices, pattern, length bounds, numeric bounds; the first
failure raises (`none`), success returns the canonical string. -/
def vs_validate (E : ExtNorm) (vs : VariableSpec) (value : String) : Option String :=
  if value = "" && !vs.allow_empty then none
  else
    match vt_normalize E vs.var_type value with
    | none => none
    | some normalized =>
        if vs.validators.any (fun f => !f normalized) then none
        else if !vs.choices.isEmpty && !vs.choices.contains normalized then none
        else if (match vs.pattern with | some p => !p normalized | none => false) then none
        else if (match vs.min_length with
                 | some m => decide (normalized.length < m)
                 | none => false) then none
        else if (match vs.max_length with
                 | some m => decide (m < normalized.length)
                 | none => false) then none
        else if value_out_of_range vs normalized then none
        else some normalized

/-- `VariableSpec.normalize` is an alias for `validate`. -/
def vs_normalize (E : ExtNorm) (vs : VariableSpec) (value : String) : Option String :=
  vs_validate E vs value

/-- `VariableSpec.sample`. -/
def vs_sample (vs : VariableSpec) : String :=
  match vs.default with
  | some d => d
  | none =>
      match vs.example_ with
      | some e => e
      | none => if vs.secret then "<redacted>" else default_example vs.var_type

/-! ## Report data (`report.py`) -/

/-- `DiffKind`. -/
inductive DiffKind where
  | missing
  | extra
  | changed
deriving Repr, DecidableEq

/-- `DiffEntry` (the Python attribute `variable` is called `var` here). -/
structure DiffEntry where
  var : String
  kind : DiffKind
  left : Option String
  right : Option String
  secret : Bool
deriving Repr, DecidableEq

/-- `_redact`. -/
def redact : Option String → Option String
  | none => none
  | some _ => some "***"

/-- `DiffEntry.redacted_left`. -/
def DiffEntry.redacted_left (e : DiffEntry) : Option String :=
  if e.secret then redact e.left else e.left

/-- `DiffEntry.redacted_right`. -/
def DiffEntry.redacted_right (e : DiffEntry) : Option String :=
  if e.secret then redact e.right else e.right

/-- The `.value` of a `DiffKind`. -/
def kind_value : DiffKind → String
  | .missing => "missing"
  | .extra => "extra"
  | .changed => "changed"

/-- The plain record produced by `DiffEntry.to_dict`. -/
structure DiffEntryDict where
  var : String
  kind : String
  left : Option String
  right : Option String
  secret : Bool
deriving Repr, DecidableEq

/-- `DiffEntry.to_dict`. -/
def DiffEntry.to_dict (e : DiffEntry) : DiffEntryDict :=
  ⟨e.var, kind_value e.kind, e.redacted_left, e.redacted_right, e.secret⟩

/-- `IssueSeverity`. -/
inductive IssueSeverity where
  | error
  | warning
  | info
deriving Repr, DecidableEq

/-- `ValidationIssue` (attribute `variable` is called `var` here). -/
structure ValidationIssue where
  var : String
  message : String
  severity : IssueSeverity
  code : String
  hint : Option String := none
deriving Repr, DecidableEq

/-- One `Counter[str]` increment (keys keep first-insertion order). -/
def counter_incr : List (String × Nat) → String → List (String × Nat)
  | [], n => [(n, 1)]
  | (k, c) :: rest, n =>
      if k = n then (k, c + 1) :: rest else (k, c) :: counter_incr rest n

/-- `Counter(names).items()` in key first-insertion order. -/
def ordered_counts (names : List String) : List (String × Nat) :=
  names.foldl counter_incr []

/-- Ascending order of the Python sort key `(-count, name)` used by
`top_variables`. -/
def top_le (a b : String × Nat) : Prop :=
  b.2 < a.2 ∨ (a.2 = b.2 ∧ a.1 ≤ b.1)

instance : DecidableRel top_le := fun a b => by
  unfold top_le; infer_instance

/-- Python slicing `l[:k]` (a negative `k` counts from the end). -/
def py_slice_to (l : List α) (k : Int) : List α :=
  if 0 ≤ k then l.take k.toNat else l.take (l.length - (-k).toNat)

/-- The shared `top_variables` query: sort the counter items by
`(-count, name)` and apply the limit. -/
def top_variables_counts (counts : List (String × Nat)) (limit : Option Int) :
    List (String × Nat) :=
  let sortedC := List.insertionSort top_le counts
  match limit with
  | none => sortedC
  | some k => if k = 0 then [] else py_slice_to sortedC k

/-- `DiffReport.top_variables` over the accumulated entries. -/
def diff_top_variables (entries : List DiffEntry) (limit : Option Int) :
    List (String × Nat) :=
  top_variables_counts (ordered_counts (entries.map (·.var))) limit

/-- `ValidationReport.top_variables` over the accumulated issues. -/
def validation_top_variables (issues : List ValidationIssue) (limit : Option Int) :
    List (String × Nat) :=
  top_variables_counts (ordered_counts (issues.map (·.var))) limit

/-- Ascending order of the sort key `(name.casefold(), name)` of
`utils.casefold_sorted`. -/
def cf_le (a b : String) : Prop :=
  py_casefold a < py_casefold b ∨ (py_casefold a = py_casefold b ∧ a ≤ b)

instance : DecidableRel cf_le := fun a b => by
  unfold cf_le; infer_instance

/-- `utils.casefold_sorted`. -/
def casefold_sorted (l : List String) : List String := List.insertionSort cf_le l

/-- `DiffReport.is_clean`. -/
def is_clean (entries : List DiffEntry) : Bool := entries.isEmpty

/-! ## Environment specification and diff (`spec.py`, `EnvSpec`) -/

/-- The fragment of `EnvSpec` the claims exercise (profiles, metadata and
imports do not participate in `diff`/`generate_example`). -/
structure EnvSpec where
  version : Int := 1
  vars : List VariableSpec

/-- `EnvSpec.variable_map`: the dict `{var.name: var}` in declaration
order. -/
def variable_map (spec : EnvSpec) : List (String × VariableSpec) :=
  spec.vars.foldl (fun m v => dict_insert m v.name v) []

/-- `_add_extra_variable_diff`; the unguarded `spec.normalize` call makes
the whole diff raise (`none`) when normalization fails. -/
def add_extra_variable_diff (E : ExtNorm) (name : String) (vs : VariableSpec)
    (right_val : String) : Option DiffEntry :=
  (vs_normalize E vs right_val).map
    (fun n => ⟨name, .extra, none, some n, vs.secret⟩)

/-- `_add_missing_variable_diff`; also unguarded. -/
def add_missing_variable_diff (E : ExtNorm) (name : String) (vs : VariableSpec)
    (left_val : String) : Option DiffEntry :=
  (vs_normalize E vs left_val).map
    (fun n => ⟨name, .missing, some n, none, vs.secret⟩)

/-- `_add_changed_variable_diff`: normalization failures are caught and
degrade to the raw values; equal canonical forms produce no entry. -/
def add_changed_variable_diff (E : ExtNorm) (name : String) (vs : VariableSpec)
    (left_val right_val : String) : List DiffEntry :=
  match vs_normalize E vs left_val, vs_normalize E vs right_val with
  | some ln, some rn =>
      if ln ≠ rn then [⟨name, .changed, some ln, some rn, vs.secret⟩] else []
  | _, _ => [⟨name, .changed, some left_val, some right_val, vs.secret⟩]

/-- Loop body of `_compare_variables` for one declared variable. -/
def compare_one (E : ExtNorm) (name : String) (vs : VariableSpec) :
    Option String → Option String → Option (List DiffEntry)
  | none, none => some []
  | none, some rv => (add_extra_variable_diff E name vs rv).map ([·])
  | some lv, none => (add_missing_variable_diff E name vs lv).map ([·])
  | some lv, some rv => some (add_changed_variable_diff E name vs lv rv)

/-- `_compare_variables` over the items of the variable map; `none`
models the `ValueError` escaping the loop. -/
def compare_variables (E : ExtNorm) :
    List (String × VariableSpec) → EnvSnapshot → EnvSnapshot →
    Option (List DiffEntry)
  | [], _, _ => some []
  | (name, vs) :: rest, left, right =>
      match compare_one E name vs (left.get name) (right.get name) with
      | none => none
      | some es =>
          match compare_variables E rest left right with
          | none => none
          | some tail => some (es ++ tail)

/-- `_handle_extra_variables`: undeclared left keys become `missing`
entries and undeclared right keys become `extra` entries, each side in
casefolded order. -/
def handle_extra_variables (vm : List (String × VariableSpec))
    (left right : EnvSnapshot) : List DiffEntry :=
  let left_extra := left.keys.filter (fun k => !contains_key vm k)
  let right_extra := right.keys.filter (fun k => !contains_key vm k)
  (casefold_sorted left_extra).map (fun k => ⟨k, .missing, left.get k, none, false⟩) ++
    (casefold_sorted right_extra).map (fun k => ⟨k, .extra, none, right.get k, false⟩)

/-- `EnvSpec.diff`: the declared-variable comparison followed by the
undeclared-key pass; `none` models a `ValueError` escaping `diff`. -/
def env_diff (E : ExtNorm) (spec : EnvSpec) (left right : EnvSnapshot) :
    Option (List DiffEntry) :=
  (compare_variables E (variable_map spec) left right).map
    (· ++ handle_extra_variables (variable_map spec) left right)

/-- The `lines` list built by `EnvSpec.generate_example`. -/
def example_lines (spec : EnvSpec) (redact_secrets : Bool) : List String :=
  spec.vars.flatMap (fun vs =>
    let sample := vs_sample vs
    let sample := if redact_secrets && vs.secret then "***" else sample
    (match vs.description with
     | some d => if d ≠ "" then ["# " ++ d] else []
     | none => []) ++ [vs.name ++ "=" ++ sample, ""])

/-- `EnvSpec.generate_example`. -/
def generate_example (spec : EnvSpec) (redact_secrets : Bool) : String :=
  py_strip_s (String.intercalate "\n" (example_lines spec redact_secrets)) ++ "\n"

/-- The entries of a report for a given variable name with kind `changed`
(the sub-list the diff claims talk about). -/
def changed_for (name : String) (entries : List DiffEntry) : List DiffEntry :=
  entries.filter (fun e => decide (e.var = name ∧ e.kind = DiffKind.changed))

/-- The malformed-line record contributed by one `(line_number, line)`
pair of `_parse_env`, if any. -/
def invalid_record (p : Nat × List Char) : Option (Nat × String) :=
  match parse_line p.2 with
  | some _ => none
  | none =>
      let s := py_strip p.2
      if !s.isEmpty && !(s.head? = some '#') then
        some (p.1, String.mk (rstrip_nl p.2))
      else none

/-- An arbitrary instantiation of the external normalizers, used to state
closed theorems whose computations never reach those normalizers. -/
def ext_arb : ExtNorm :=
  ⟨fun s => some s, fun s => some s, fun s => some s, fun s => some s⟩

/-- A boolean variable declaration named `FLAG`. -/
def flag_var : VariableSpec := { name := "FLAG", var_type := .BOOL }

/-- A one-variable spec declaring a boolean `FLAG`. -/
def bool_flag_spec : EnvSpec := { version := 1, vars := [flag_var] }

/-- A snapshot literal. -/
def snap (vals : List (String × String)) (src : String) : EnvSnapshot :=
  { values := vals, source := src }

/-- The per-variable value of the amended C7, written from the spec's
words: the redaction override first, then default, example, and the
secret mask or the type's default example. -/
def spec_chosen_value (redact_secrets : Bool) (vs : VariableSpec) : String :=
  if redact_secrets && vs.secret then "***"
  else
    match vs.default with
    | some d => d
    | none =>
        match vs.example_ with
        | some e => e
        | none => if vs.secret then "<redacted>" else default_example vs.var_type

/-! ## Dictionary lemmas -/

theorem mem_map_fst_dict_insert {m : List (String × α)} {k a : String} {v : α} :
    a ∈ (dict_insert m k v).map Prod.fst ↔ a = k ∨ a ∈ m.map Prod.fst := by
  induction m with
  | nil => simp [dict_insert]
  | cons p rest ih =>
      obtain ⟨k', v'⟩ := p
      by_cases h : k' = k <;> simp [dict_insert, h, ih] <;> tauto

theorem dict_insert_map_fst_nodup {m : List (String × α)} {k : String} {v : α}
    (h : (m.map Prod.fst).Nodup) : ((dict_insert m k v).map Prod.fst).Nodup := by
  induction m with
  | nil => simp [dict_insert]
  | cons p rest ih =>
      obtain ⟨k', v'⟩ := p
      simp only [List.map_cons, List.nodup_cons] at h
      by_cases hk : k' = k
      · subst hk
        simpa [dict_insert, List.nodup_cons] using h
      · simp only [dict_insert, if_neg hk, List.map_cons, List.nodup_cons]
        refine ⟨?_, ih h.2⟩
        rw [mem_map_fst_dict_insert]
        rintro (rfl | hm)
        · exact hk rfl
        · exact h.1 hm

theorem variable_map_keys_nodup (spec : EnvSpec) :
    ((variable_map spec).map Prod.fst).Nodup := by
  have main : ∀ (l : List VariableSpec) (m : List (String × VariableSpec)),
      (m.map Prod.fst).Nodup →
      ((l.foldl (fun m v => dict_insert m v.name v) m).map Prod.fst).Nodup := by
    intro l
    induction l with
    | nil => intro m hm; simpa using hm
    | cons v rest ih =>
        intro m hm
        exact ih _ (dict_insert_map_fst_nodup hm)
  exact main spec.vars [] (by simp)

theorem mem_keys_of_dict_get_some {m : List (String × α)} {k : String} {v : α}
    (h : dict_get m k = some v) : k ∈ m.map Prod.fst := by
  induction m with
  | nil => simp [dict_get] at h
  | cons p rest ih =>
      obtain ⟨k', v'⟩ := p
      by_cases hk : k' = k
      · simp [hk]
      · simp only [dict_get, if_neg hk] at h
        simp [ih h]

theorem not_mem_keys_of_dict_get_none {m : List (String × α)} {k : String}
    (h : dict_get m k = none) : k ∉ m.map Prod.fst := by
  induction m with
  | nil => simp
  | cons p rest ih =>
      obtain ⟨k', v'⟩ := p
      by_cases hk : k' = k
      · simp [dict_get, hk] at h
      · simp only [dict_get, if_neg hk] at h
        simp [Ne.symm hk, ih h]

theorem contains_key_false_not_mem {m : List (String × α)} {k : String}
    (h : contains_key m k = false) : k ∉ m.map Prod.fst := by
  apply not_mem_keys_of_dict_get_none
  cases hg : dict_get m k with
  | none => rfl
  | some v => simp [contains_key, hg] at h

/-! ## Termination of the parser loops (C4) -/

theorem scan_quoted_f_eq (q : Char) :
    ∀ (fuel : Nat) (s : List Char), s.length ≤ fuel →
      scan_quoted_f q fuel s = some (scan_quoted q s) := by
  intro fuel
  induction fuel with
  | zero =>
      intro s hs
      interval_cases hl : s.length
      · rw [List.length_eq_zero] at hl
        subst hl
        rfl
  | succ n ih =>
      intro s hs
      match s with
      | [] => rfl
      | [c] =>
          simp only [scan_quoted_f, scan_quoted]
          split_ifs <;> rfl
      | c :: c2 :: rest =>
          simp only [List.length_cons, Nat.succ_le_succ_iff] at hs
          have h1 : rest.length ≤ n := le_trans (Nat.le_succ _) hs
          have h2 : (c2 :: rest).length ≤ n := hs
          simp only [scan_quoted_f, scan_quoted, ih rest h1, ih (c2 :: rest) h2,
            Option.map_some']
          split_ifs <;> rfl

theorem unescape_f_eq :
    ∀ (fuel : Nat) (s : List Char), s.length ≤ fuel →
      unescape_f fuel s = some (unescape_chars s) := by
  intro fuel
  induction fuel with
  | zero =>
      intro s hs
      interval_cases hl : s.length
      · rw [List.length_eq_zero] at hl
        subst hl
        rfl
  | succ n ih =>
      intro s hs
      match s with
      | [] => rfl
      | [c] => simp [unescape_f, unescape_chars]
      | c :: c2 :: rest =>
          simp only [List.length_cons, Nat.succ_le_succ_iff] at hs
          have h1 : rest.length ≤ n := le_trans (Nat.le_succ _) hs
          have h2 : (c2 :: rest).length ≤ n := hs
          simp only [unescape_f, unescape_chars, ih rest h1, ih (c2 :: rest) h2]
          cases unescape_map c2 <;> split_ifs <;> rfl

theorem sanitize_value_f_eq (value : List Char) :
    sanitize_value_f value = some (sanitize_value value) := by
  unfold sanitize_value_f sanitize_value
  cases hp : py_strip value with
  | nil => rfl
  | cons c rest =>
      dsimp only
      rw [scan_quoted_f_eq c rest.length rest le_rfl]
      by_cases hq : (c = '"' || c = '\'') = true
      · simp only [if_pos hq]
        by_cases h1 : (!(scan_quoted c rest).2.2) = true
        · simp only [if_pos h1]
        · simp only [if_neg h1]
          cases hr : py_strip (scan_quoted c rest).2.1 with
          | nil => rfl
          | cons r1 tail =>
              dsimp only
              by_cases h2 : r1 = '#'
              · simp only [if_pos h2]
              · simp only [if_neg h2]
                by_cases h3 : (strip_inline_comment (r1 :: tail)).isEmpty = true
                · simp only [if_pos h3]
                · simp only [if_neg h3]
      · simp only [if_neg hq]

theorem parse_line_f_eq (line : List Char) :
    parse_line_f line = some (parse_line line) := by
  unfold parse_line_f parse_line
  by_cases h1 : (py_strip line).isEmpty
  · simp [h1]
  · simp only [h1]
    by_cases h2 : (py_strip line).head? = some '#'
    · simp [h2]
    · simp only [h2, if_neg, if_false]
      cases hm : match_env_line (py_strip line) with
      | none => simp
      | some kv =>
          obtain ⟨k, v⟩ := kv
          simp only [sanitize_value_f_eq v]
          cases hs : sanitize_value v with
          | none => simp
          | some processed =>
              simp [unescape_f_eq processed.length processed le_rfl]

theorem parse_step_f_eq (acc : ParseResult) (p : Nat × List Char) :
    parse_step_f acc p = some (parse_step acc p) := by
  unfold parse_step_f parse_step
  rw [parse_line_f_eq]
  cases hp : parse_line p.2 with
  | none =>
      dsimp only
      split_ifs <;> rfl
  | some kv => rfl

theorem foldlM_parse_step_f_eq :
    ∀ (ps : List (Nat × List Char)) (acc : ParseResult),
      ps.foldlM parse_step_f acc = some (ps.foldl parse_step acc) := by
  intro ps
  induction ps with
  | nil => intro acc; rfl
  | cons p rest ih =>
      intro acc
      rw [List.foldlM_cons, parse_step_f_eq]
      exact ih (parse_step acc p)

/-- C4: for every input text the snapshot parser terminates normally —
the fueled translation of its `while` loops succeeds within an
input-length iteration budget — and returns the values map, duplicates
and malformed lines of the total embedding, with no failure outcome
(`_parse_env` has no raise path, so the embedding is a total function
into `ParseResult`); `EnvSnapshot.from_text` packages that triple
unchanged. -/
theorem parser_terminates_and_agrees (raw : String) (source : String) :
    parse_env_f raw = some (parse_env raw) ∧
    from_text raw source =
      ⟨(parse_env raw).values, source, (parse_env raw).duplicates,
        (parse_env raw).invalid⟩ := by
  constructor
  · unfold parse_env_f parse_env
    exact foldlM_parse_step_f_eq _ _
  · rfl

/-! ## Structure of the diff output -/

theorem compare_one_var {E : ExtNorm} {name : String} {vs : VariableSpec}
    {lv rv : Option String} {es : List DiffEntry}
    (h : compare_one E name vs lv rv = some es) : ∀ e ∈ es, e.var = name := by
  intro e he
  cases lv with
  | none =>
      cases rv with
      | none =>
          injection h with h
          subst h
          cases he
      | some rv =>
          simp only [compare_one, add_extra_variable_diff, Option.map_eq_some'] at h
          obtain ⟨x, hx, rfl⟩ := h
          obtain ⟨y, hy, rfl⟩ := hx
          simp only [List.mem_singleton] at he
          subst he
          rfl
  | some lv =>
      cases rv with
      | none =>
          simp only [compare_one, add_missing_variable_diff, Option.map_eq_some'] at h
          obtain ⟨x, hx, rfl⟩ := h
          obtain ⟨y, hy, rfl⟩ := hx
          simp only [List.mem_singleton] at he
          subst he
          rfl
      | some rv =>
          injection h with h
          subst h
          unfold add_changed_variable_diff at he
          rcases hln : vs_normalize E vs lv with _ | ln <;>
            rcases hrn : vs_normalize E vs rv with _ | rn <;>
            simp only [hln, hrn] at he <;>
            (try split_ifs at he) <;>
            simp only [List.mem_singleton, List.not_mem_nil] at he <;>
            (subst he; rfl)

theorem compare_variables_var_mem {E : ExtNorm} :
    ∀ (vm : List (String × VariableSpec)) (l r : EnvSnapshot)
      (entries : List DiffEntry),
      compare_variables E vm l r = some entries →
      ∀ e ∈ entries, e.var ∈ vm.map Prod.fst := by
  intro vm
  induction vm with
  | nil =>
      intro l r entries h e he
      simp only [compare_variables, Option.some.injEq] at h
      subst h
      cases he
  | cons p rest ih =>
      intro l r entries h e he
      obtain ⟨name, vs⟩ := p
      rw [compare_variables] at h
      rcases h1 : compare_one E name vs (l.get name) (r.get name) with _ | es <;>
        rw [h1] at h
      · cases h
      · rcases h2 : compare_variables E rest l r with _ | tail <;> rw [h2] at h
        · cases h
        · injection h with h3
          subst h3
          rcases List.mem_append.mp he with hes | htail
          · simp [compare_one_var h1 e hes]
          · simp [ih l r tail h2 e htail]

theorem changed_for_append (name : String) (a b : List DiffEntry) :
    changed_for name (a ++ b) = changed_for name a ++ changed_for name b :=
  List.filter_append _ _

theorem changed_for_eq_nil {name : String} {l : List DiffEntry}
    (h : ∀ e ∈ l, e.var ≠ name) : changed_for name l = [] := by
  rw [changed_for, List.filter_eq_nil]
  intro e he
  simp [h e he]

theorem handle_extra_kind_not_changed (vm : List (String × VariableSpec))
    (l r : EnvSnapshot) :
    ∀ e ∈ handle_extra_variables vm l r, e.kind ≠ DiffKind.changed := by
  intro e he
  simp only [handle_extra_variables, List.mem_append, List.mem_map] at he
  rcases he with ⟨k, _, rfl⟩ | ⟨k, _, rfl⟩ <;> simp

theorem changed_for_handle_extra (name : String)
    (vm : List (String × VariableSpec)) (l r : EnvSnapshot) :
    changed_for name (handle_extra_variables vm l r) = [] := by
  rw [changed_for, List.filter_eq_nil]
  intro e he
  simp [handle_extra_kind_not_changed vm l r e he]

theorem compare_variables_changed_for {E : ExtNorm} :
    ∀ (vm : List (String × VariableSpec)) (l r : EnvSnapshot)
      (entries : List DiffEntry) (name : String) (vs : VariableSpec),
      compare_variables E vm l r = some entries →
      (vm.map Prod.fst).Nodup →
      (name, vs) ∈ vm →
      ∃ es, compare_one E name vs (l.get name) (r.get name) = some es ∧
        changed_for name entries = changed_for name es := by
  intro vm
  induction vm with
  | nil =>
      intro l r entries name vs _ _ hmem
      cases hmem
  | cons p rest ih =>
      intro l r entries name vs h hnd hmem
      obtain ⟨name', vs'⟩ := p
      rw [compare_variables] at h
      rcases h1 : compare_one E name' vs' (l.get name') (r.get name') with _ | es <;>
        rw [h1] at h
      · cases h
      rcases h2 : compare_variables E rest l r with _ | tail <;> rw [h2] at h
      · cases h
      injection h with h3
      subst h3
      simp only [List.map_cons, List.nodup_cons] at hnd
      rcases List.mem_cons.mp hmem with heq | hrest
      · injection heq with e1 e2
        subst e1
        subst e2
        refine ⟨es, h1, ?_⟩
        rw [changed_for_append]
        have htail : changed_for name tail = [] := by
          apply changed_for_eq_nil
          intro e he hc
          exact hnd.1 (hc ▸ compare_variables_var_mem rest l r tail h2 e he)
        rw [htail, List.append_nil]
      · have hne : name' ≠ name := by
          intro hc
          subst hc
          exact hnd.1 (List.mem_map_of_mem Prod.fst hrest)
        obtain ⟨es', h1', h2'⟩ := ih l r tail name vs h2 hnd.2 hrest
        refine ⟨es', h1', ?_⟩
        rw [changed_for_append, h2']
        have hes : changed_for name es = [] := by
          apply changed_for_eq_nil
          intro e he hc
          exact hne (by rw [← compare_one_var h1 e he, hc])
        rw [hes, List.nil_append]

/-- C1: `EnvSpec.diff` raises an uncaught `ValueError` (modelled as
`none`) whenever a declared variable is present on exactly one side with
a value its type fails to normalize — `_add_extra_variable_diff` and
`_add_missing_variable_diff` call `spec.normalize` without the
`try/except` that `_add_changed_variable_diff` has.  Here: `FLAG` is a
declared boolean, absent on the left, `"maybe"` on the right; the claim
says diff should contain an `extra` entry with the raw value and never
raise. -/
theorem diff_raises_on_one_sided_normalization_failure (E : ExtNorm) :
    env_diff E bool_flag_spec (snap [] "left") (snap [("FLAG", "maybe")] "right") =
      none := rfl

/-- C2 (amended): for a declared variable present in both snapshots,
equal raw text yields no `changed` entry when the value normalizes; when
either side fails to normalize, exactly one `changed` entry carrying the
raw values on both sides is produced even if the raw texts are equal;
when both sides normalize, exactly one `changed` entry (with the
canonical values) is produced iff the canonical forms differ. -/
theorem diff_changed_entry_characterization
    (E : ExtNorm) (spec : EnvSpec) (left right : EnvSnapshot)
    (name : String) (vs : VariableSpec) (entries : List DiffEntry)
    (lv rv : String)
    (hmem : (name, vs) ∈ variable_map spec)
    (hd : env_diff E spec left right = some entries)
    (hl : left.get name = some lv) (hr : right.get name = some rv) :
    (lv = rv → (vs_normalize E vs lv).isSome → changed_for name entries = []) ∧
    (vs_normalize E vs lv = none ∨ vs_normalize E vs rv = none →
      changed_for name entries =
        [⟨name, DiffKind.changed, some lv, some rv, vs.secret⟩]) ∧
    (∀ ln rn, vs_normalize E vs lv = some ln → vs_normalize E vs rv = some rn →
      changed_for name entries =
        if ln ≠ rn then [⟨name, DiffKind.changed, some ln, some rn, vs.secret⟩]
        else []) := by
  simp only [env_diff, Option.map_eq_some'] at hd
  obtain ⟨cv, hcv, rfl⟩ := hd
  obtain ⟨es, h1, h2⟩ :=
    compare_variables_changed_for (variable_map spec) left right cv name vs hcv
      (variable_map_keys_nodup spec) hmem
  rw [hl, hr] at h1
  simp only [compare_one, Option.some.injEq] at h1
  subst h1
  rw [changed_for_append, changed_for_handle_extra, List.append_nil, h2]
  refine ⟨?_, ?_, ?_⟩
  · rintro rfl hs
    obtain ⟨ln, hln⟩ := Option.isSome_iff_exists.mp hs
    unfold add_changed_variable_diff
    rw [hln]
    simp [changed_for]
  · intro hn
    unfold add_changed_variable_diff
    rcases hln : vs_normalize E vs lv with _ | ln
    · simp [changed_for]
    · rcases hrn : vs_normalize E vs rv with _ | rn
      · simp [changed_for]
      · rcases hn with hn | hn
        · rw [hln] at hn; cases hn
        · rw [hrn] at hn; cases hn
  · intro ln rn hln hrn
    unfold add_changed_variable_diff
    rw [hln, hrn]
    by_cases hne : ln = rn <;> simp [changed_for, hne]

/-- C2 counterexample: a declared boolean `FLAG` with the same
unnormalizable raw text `"xyz"` on both sides produces a `changed`
entry, although the claim says equal raw text never does. -/
theorem diff_changed_on_equal_unnormalizable_raw :
    env_diff ext_arb bool_flag_spec (snap [("FLAG", "xyz")] "left")
        (snap [("FLAG", "xyz")] "right") =
      some [⟨"FLAG", DiffKind.changed, some "xyz", some "xyz", false⟩] ∧
    changed_for "FLAG"
        [⟨"FLAG", DiffKind.changed, some "xyz", some "xyz", false⟩] ≠ [] := by
  exact ⟨rfl, by decide⟩

theorem diff_changed_entry_characterization_witness :
    changed_for "FLAG"
        [⟨"FLAG", DiffKind.changed, some "true", some "false", false⟩] =
      if ("true" : String) ≠ "false" then
        [⟨"FLAG", DiffKind.changed, some "true", some "false", false⟩]
      else [] :=
  (diff_changed_entry_characterization ext_arb bool_flag_spec
      (snap [("FLAG", "1")] "left") (snap [("FLAG", "no")] "right")
      "FLAG" flag_var
      [⟨"FLAG", DiffKind.changed, some "true", some "false", false⟩]
      "1" "no" (List.mem_singleton.mpr rfl) rfl rfl rfl).2.2
    "true" "false" rfl rfl

/-! ## Undeclared keys in the diff (C3) -/

theorem count_handle_extra_missing {vm : List (String × VariableSpec)}
    {l : EnvSnapshot} (r : EnvSnapshot) {name v : String}
    (hund : contains_key vm name = false)
    (hnl : (l.values.map Prod.fst).Nodup)
    (hget : l.get name = some v) :
    (handle_extra_variables vm l r).count
      ⟨name, DiffKind.missing, some v, none, false⟩ = 1 := by
  unfold handle_extra_variables
  rw [List.count_append]
  have hright :
      ((casefold_sorted (r.keys.filter (fun k => !contains_key vm k))).map
          (fun k => (⟨k, DiffKind.extra, none, r.get k, false⟩ : DiffEntry))).count
        ⟨name, DiffKind.missing, some v, none, false⟩ = 0 := by
    rw [List.count_eq_zero]
    intro hmem
    obtain ⟨k, _, hk⟩ := List.mem_map.mp hmem
    simp [DiffEntry.mk.injEq] at hk
  rw [hright, Nat.add_zero]
  have f_inj : Function.Injective
      (fun k => (⟨k, DiffKind.missing, l.get k, none, false⟩ : DiffEntry)) := by
    intro a b hab
    simpa using congrArg DiffEntry.var hab
  have hentry : (⟨name, DiffKind.missing, some v, none, false⟩ : DiffEntry) =
      (fun k => (⟨k, DiffKind.missing, l.get k, none, false⟩ : DiffEntry)) name := by
    simp [hget]
  rw [hentry, List.count_map_of_injective _ _ f_inj]
  unfold casefold_sorted
  rw [(List.perm_insertionSort cf_le _).count_eq]
  rw [List.count_filter (by simp [hund])]
  exact List.count_eq_one_of_mem hnl (mem_keys_of_dict_get_some hget)

theorem count_handle_extra_extra {vm : List (String × VariableSpec)}
    (l : EnvSnapshot) {r : EnvSnapshot} {name v : String}
    (hund : contains_key vm name = false)
    (hnr : (r.values.map Prod.fst).Nodup)
    (hget : r.get name = some v) :
    (handle_extra_variables vm l r).count
      ⟨name, DiffKind.extra, none, some v, false⟩ = 1 := by
  unfold handle_extra_variables
  rw [List.count_append]
  have hleft :
      ((casefold_sorted (l.keys.filter (fun k => !contains_key vm k))).map
          (fun k => (⟨k, DiffKind.missing, l.get k, none, false⟩ : DiffEntry))).count
        ⟨name, DiffKind.extra, none, some v, false⟩ = 0 := by
    rw [List.count_eq_zero]
    intro hmem
    obtain ⟨k, _, hk⟩ := List.mem_map.mp hmem
    simp [DiffEntry.mk.injEq] at hk
  rw [hleft, Nat.zero_add]
  have f_inj : Function.Injective
      (fun k => (⟨k, DiffKind.extra, none, r.get k, false⟩ : DiffEntry)) := by
    intro a b hab
    simpa using congrArg DiffEntry.var hab
  have hentry : (⟨name, DiffKind.extra, none, some v, false⟩ : DiffEntry) =
      (fun k => (⟨k, DiffKind.extra, none, r.get k, false⟩ : DiffEntry)) name := by
    simp [hget]
  rw [hentry, List.count_map_of_injective _ _ f_inj]
  unfold casefold_sorted
  rw [(List.perm_insertionSort cf_le _).count_eq]
  rw [List.count_filter (by simp [hund])]
  exact List.count_eq_one_of_mem hnr (mem_keys_of_dict_get_some hget)

theorem handle_extra_no_missing_when_absent {vm : List (String × VariableSpec)}
    {l : EnvSnapshot} (r : EnvSnapshot) {name : String}
    (hnone : l.get name = none) :
    ∀ e ∈ handle_extra_variables vm l r, e.var = name →
      e.kind ≠ DiffKind.missing := by
  intro e he hvar
  simp only [handle_extra_variables, List.mem_append, List.mem_map] at he
  rcases he with ⟨k, hk, rfl⟩ | ⟨k, hk, rfl⟩
  · intro _
    have hk' := (List.mem_insertionSort cf_le).mp hk
    have hmem := (List.mem_filter.mp hk').1
    exact not_mem_keys_of_dict_get_none hnone (hvar ▸ hmem)
  · simp

theorem handle_extra_no_extra_when_absent {vm : List (String × VariableSpec)}
    (l : EnvSnapshot) {r : EnvSnapshot} {name : String}
    (hnone : r.get name = none) :
    ∀ e ∈ handle_extra_variables vm l r, e.var = name →
      e.kind ≠ DiffKind.extra := by
  intro e he hvar
  simp only [handle_extra_variables, List.mem_append, List.mem_map] at he
  rcases he with ⟨k, hk, rfl⟩ | ⟨k, hk, rfl⟩
  · simp
  · intro _
    have hk' := (List.mem_insertionSort cf_le).mp hk
    have hmem := (List.mem_filter.mp hk').1
    exact not_mem_keys_of_dict_get_none hnone (hvar ▸ hmem)

/-- C3 (amended): in `EnvSpec.diff`, an undeclared key present in the
left snapshot always produces exactly one raw-valued `missing` entry and
one present in the right snapshot always produces exactly one raw-valued
`extra` entry, regardless of the other side — so a key present in both
snapshots produces both entries; a side where the key is absent
contributes no entry of its kind. -/
theorem diff_undeclared_key_entries
    (E : ExtNorm) (spec : EnvSpec) (left right : EnvSnapshot)
    (entries : List DiffEntry) (name : String)
    (hd : env_diff E spec left right = some entries)
    (hund : contains_key (variable_map spec) name = false)
    (hnl : (left.values.map Prod.fst).Nodup)
    (hnr : (right.values.map Prod.fst).Nodup) :
    (∀ v, left.get name = some v →
        entries.count ⟨name, DiffKind.missing, some v, none, false⟩ = 1) ∧
    (left.get name = none →
        ∀ e ∈ entries, e.var = name → e.kind ≠ DiffKind.missing) ∧
    (∀ v, right.get name = some v →
        entries.count ⟨name, DiffKind.extra, none, some v, false⟩ = 1) ∧
    (right.get name = none →
        ∀ e ∈ entries, e.var = name → e.kind ≠ DiffKind.extra) := by
  simp only [env_diff, Option.map_eq_some'] at hd
  obtain ⟨cv, hcv, rfl⟩ := hd
  have hnotmem := contains_key_false_not_mem hund
  have hcv_var := compare_variables_var_mem (variable_map spec) left right cv hcv
  have hcv_count : ∀ d : DiffEntry, d.var = name → cv.count d = 0 := by
    intro d hdvar
    rw [List.count_eq_zero]
    intro hmem
    exact hnotmem (hdvar ▸ hcv_var d hmem)
  refine ⟨?_, ?_, ?_, ?_⟩
  · intro v hget
    rw [List.count_append, hcv_count _ rfl, Nat.zero_add]
    exact count_handle_extra_missing right hund hnl hget
  · intro hnone e he hvar
    rcases List.mem_append.mp he with hec | heh
    · exact absurd (hvar ▸ hcv_var e hec) hnotmem
    · exact handle_extra_no_missing_when_absent right hnone e heh hvar
  · intro v hget
    rw [List.count_append, hcv_count _ rfl, Nat.zero_add]
    exact count_handle_extra_extra left hund hnr hget
  · intro hnone e he hvar
    rcases List.mem_append.mp he with hec | heh
    · exact absurd (hvar ▸ hcv_var e hec) hnotmem
    · exact handle_extra_no_extra_when_absent left hnone e heh hvar

/-- C3 counterexample: under an empty spec, the undeclared key `FOO`
present in both snapshots with the same value produces a `missing` and an
`extra` entry (diff of identical snapshots is not clean), although the
claim says a key present in both produces no entry. -/
theorem diff_undeclared_key_in_both_snapshots :
    env_diff ext_arb { version := 1, vars := [] } (snap [("FOO", "1")] "left")
        (snap [("FOO", "1")] "right") =
      some [⟨"FOO", DiffKind.missing, some "1", none, false⟩,
        ⟨"FOO", DiffKind.extra, none, some "1", false⟩] ∧
    is_clean [⟨"FOO", DiffKind.missing, some "1", none, false⟩,
        ⟨"FOO", DiffKind.extra, none, some "1", false⟩] = false :=
  ⟨rfl, rfl⟩

theorem diff_undeclared_key_entries_witness :
    ([⟨"FOO", DiffKind.missing, some "1", none, false⟩] : List DiffEntry).count
        ⟨"FOO", DiffKind.missing, some "1", none, false⟩ = 1 :=
  (diff_undeclared_key_entries ext_arb { version := 1, vars := [] }
      (snap [("FOO", "1")] "left") (snap [] "right")
      [⟨"FOO", DiffKind.missing, some "1", none, false⟩] "FOO" rfl rfl
      (by decide) (by decide)).1 "1" rfl

/-! ## String normalization (C6) -/

/-- C6 (amended): `STRING` normalization is `str.strip`, not the
identity: it returns the raw value with surrounding whitespace removed,
and is therefore the identity exactly on already-stripped strings. -/
theorem string_normalize_strips (E : ExtNorm) (raw : String) :
    vt_normalize E VariableType.STRING raw = some (py_strip_s raw) ∧
    (py_strip_s raw = raw → vt_normalize E VariableType.STRING raw = some raw) := by
  refine ⟨rfl, ?_⟩
  intro h
  calc vt_normalize E VariableType.STRING raw = some (py_strip_s raw) := rfl
    _ = some raw := by rw [h]

theorem string_normalize_strips_witness :
    vt_normalize ext_arb VariableType.STRING "a" = some "a" :=
  (string_normalize_strips ext_arb "a").2 rfl

/-- C6 counterexample: `STRING.normalize " a "` is `"a"`, not the raw
input `" a "`. -/
theorem string_normalize_not_identity :
    vt_normalize ext_arb VariableType.STRING " a " ≠ some " a " ∧
    vt_normalize ext_arb VariableType.STRING " a " = some "a" := by
  exact ⟨by decide, rfl⟩

/-! ## Example generation (C7) -/

/-- C7 (amended): the value `generate_example` emits for a variable is
`"***"` whenever `redact_secrets` (true by default) and the variable is
secret — even when a default or example is declared — and otherwise
default, then example, then (secret ? `"<redacted>"` : the type's default
example); a secret variable with a declared default is rendered with
that default only when `redact_secrets` is false. -/
theorem generate_example_value_choice (spec : EnvSpec) (redact_secrets : Bool) :
    example_lines spec redact_secrets =
      spec.vars.flatMap (fun vs =>
        (match vs.description with
         | some d => if d ≠ "" then ["# " ++ d] else []
         | none => []) ++
        [vs.name ++ "=" ++ spec_chosen_value redact_secrets vs, ""]) := by
  unfold example_lines spec_chosen_value
  exact congrArg (List.flatMap spec.vars)
    (funext fun vs => by
      by_cases h : (redact_secrets && vs.secret) = true <;> simp [h, vs_sample])

/-- C7 counterexample: a secret variable with declared default `"d"` is
rendered as `***` by `generate_example` under the default redaction,
not with its default. -/
theorem generate_example_masks_secret_default :
    generate_example
        { version := 1,
          vars := [{ name := "A", var_type := VariableType.STRING,
                     default := some "d", secret := true }] } true = "A=***\n" ∧
    ("A=***\n" : String) ≠ "A=d\n" := by
  exact ⟨rfl, by decide⟩

/-! ## `top_variables` ordering (C8) -/

instance : IsTotal (String × Nat) top_le where
  total a b := by
    unfold top_le
    rcases Nat.lt_trichotomy a.2 b.2 with h | h | h
    · exact Or.inr (Or.inl h)
    · rcases le_total a.1 b.1 with hs | hs
      · exact Or.inl (Or.inr ⟨h, hs⟩)
      · exact Or.inr (Or.inr ⟨h.symm, hs⟩)
    · exact Or.inl (Or.inl h)

instance : IsTrans (String × Nat) top_le where
  trans a b c hab hbc := by
    unfold top_le at hab hbc ⊢
    rcases hab with h1 | ⟨h1, h1s⟩ <;> rcases hbc with h2 | ⟨h2, h2s⟩
    · exact Or.inl (h2.trans h1)
    · exact Or.inl (h2 ▸ h1)
    · exact Or.inl (h1 ▸ h2)
    · exact Or.inr ⟨h1.trans h2, h1s.trans h2s⟩

/-- C8 (amended): both `top_variables` accumulators order the counter
items by descending count with ties broken by ascending exact
(code-point) name — the case-insensitive key is not part of this sort, so
`"Beta"` precedes `"alpha"` on a tie. -/
theorem top_variables_sorted_by_count_then_exact_name
    (issues : List ValidationIssue) (entries : List DiffEntry) :
    List.Sorted top_le (validation_top_variables issues none) ∧
    (validation_top_variables issues none).Perm
      (ordered_counts (issues.map (·.var))) ∧
    List.Sorted top_le (diff_top_variables entries none) ∧
    (diff_top_variables entries none).Perm
      (ordered_counts (entries.map (·.var))) := by
  refine ⟨?_, ?_, ?_, ?_⟩ <;>
    simp only [validation_top_variables, diff_top_variables, top_variables_counts]
  · exact List.sorted_insertionSort top_le _
  · exact List.perm_insertionSort top_le _
  · exact List.sorted_insertionSort top_le _
  · exact List.perm_insertionSort top_le _

/-- C8 counterexample: `alpha` and `Beta` with equal counts are listed
with `Beta` first (exact code-point order), while the claim's example
says `alpha` comes first. -/
theorem top_variables_tie_exact_name_order :
    diff_top_variables
        [⟨"alpha", DiffKind.missing, some "1", none, false⟩,
         ⟨"Beta", DiffKind.missing, some "1", none, false⟩] none =
      [("Beta", 1), ("alpha", 1)] ∧
    diff_top_variables
        [⟨"alpha", DiffKind.missing, some "1", none, false⟩,
         ⟨"Beta", DiffKind.missing, some "1", none, false⟩] none ≠
      [("alpha", 1), ("Beta", 1)] := by
  have hab : ¬ top_le ("alpha", 1) ("Beta", 1) := by
    unfold top_le
    rintro (h | ⟨-, h⟩)
    · exact absurd h (lt_irrefl 1)
    · rw [String.le_iff_toList_le] at h
      revert h
      decide
  have hcomp : diff_top_variables
      [⟨"alpha", DiffKind.missing, some "1", none, false⟩,
       ⟨"Beta", DiffKind.missing, some "1", none, false⟩] none =
      [("Beta", 1), ("alpha", 1)] := by
    show List.orderedInsert top_le ("alpha", 1) [("Beta", 1)] = _
    rw [List.orderedInsert, if_neg hab]
    rfl
  refine ⟨hcomp, ?_⟩
  rw [hcomp]
  decide

/-! ## Malformed-line recording (C9) -/

theorem contains_key_iff_mem {m : List (String × α)} {k : String} :
    contains_key m k = true ↔ k ∈ m.map Prod.fst := by
  constructor
  · intro h
    cases hg : dict_get m k with
    | none => simp [contains_key, hg] at h
    | some v => exact mem_keys_of_dict_get_some hg
  · intro h
    cases hg : dict_get m k with
    | none => exact absurd h (not_mem_keys_of_dict_get_none hg)
    | some v => simp [contains_key, hg]

theorem parse_step_invalid (acc : ParseResult) (p : Nat × List Char) :
    (parse_step acc p).invalid = acc.invalid ++ (invalid_record p).toList := by
  unfold parse_step invalid_record
  cases hp : parse_line p.2 with
  | none =>
      dsimp only
      split_ifs with h
      · simp
      · simp
  | some kv => simp

theorem foldl_parse_step_invalid :
    ∀ (ps : List (Nat × List Char)) (acc : ParseResult),
      (ps.foldl parse_step acc).invalid =
        acc.invalid ++ ps.filterMap invalid_record := by
  intro ps
  induction ps with
  | nil => intro acc; simp
  | cons p rest ih =>
      intro acc
      rw [List.foldl_cons, ih, parse_step_invalid, List.filterMap_cons]
      cases invalid_record p <;> simp

theorem foldl_parse_step_keys :
    ∀ (ps : List (Nat × List Char)) (acc : ParseResult) (k : String),
      contains_key (ps.foldl parse_step acc).values k = true →
      contains_key acc.values k = true ∨
        ∃ p ∈ ps, ∃ kc v, parse_line p.2 = some (kc, v) ∧ String.mk kc = k := by
  intro ps
  induction ps with
  | nil => intro acc k h; exact Or.inl h
  | cons p rest ih =>
      intro acc k h
      rw [List.foldl_cons] at h
      rcases ih _ k h with hacc | ⟨q, hq, hrest⟩
      · unfold parse_step at hacc
        rcases hp : parse_line p.2 with _ | kv <;> rw [hp] at hacc
        · dsimp only at hacc
          split_ifs at hacc <;> exact Or.inl hacc
        · dsimp only at hacc
          rw [contains_key_iff_mem, mem_map_fst_dict_insert] at hacc
          rcases hacc with rfl | hmem
          · exact Or.inr ⟨p, List.mem_cons_self p rest, kv.1, kv.2, by
              rw [hp], rfl⟩
          · exact Or.inl (contains_key_iff_mem.mpr hmem)
      · exact Or.inr ⟨q, List.mem_cons_of_mem p hq, hrest⟩

/-- C9 (amended): a non-blank, non-comment line that does not match the
`[export ]KEY=VALUE` shape is recorded in `malformed_lines` as
`(line_number, line.rstrip("\n"))` — surrounding whitespace is preserved,
not trimmed — and every key of the values map comes from a line the
parser accepted, so a malformed line contributes no key. -/
theorem malformed_line_recorded_untrimmed
    (raw : String) (i : Nat) (line : List Char)
    (hline : (py_splitlines (strip_bom_chars raw.toList))[i]? = some line)
    (hne : (py_strip line).isEmpty = false)
    (hh : ¬(py_strip line).head? = some '#')
    (hm : match_env_line (py_strip line) = none) :
    (1 + i, String.mk (rstrip_nl line)) ∈ (parse_env raw).invalid ∧
    ∀ k, contains_key (parse_env raw).values k = true →
      ∃ p ∈ (py_splitlines (strip_bom_chars raw.toList)).enumFrom 1,
        ∃ kc v, parse_line p.2 = some (kc, v) ∧ String.mk kc = k := by
  have hpl : parse_line line = none := by
    unfold parse_line
    rw [if_neg (by simp [hne]), if_neg hh, hm]
  have hir : invalid_record (1 + i, line) =
      some (1 + i, String.mk (rstrip_nl line)) := by
    unfold invalid_record
    rw [hpl]
    dsimp only
    rw [if_pos (by simp [hne, hh])]
  have hinv : (parse_env raw).invalid =
      ((py_splitlines (strip_bom_chars raw.toList)).enumFrom 1).filterMap
        invalid_record := by
    unfold parse_env
    rw [foldl_parse_step_invalid]
    rfl
  constructor
  · rw [hinv, List.mem_filterMap]
    refine ⟨(1 + i, line), ?_, hir⟩
    have := List.getElem?_enumFrom 1 (py_splitlines (strip_bom_chars raw.toList)) i
    rw [hline] at this
    exact List.getElem?_mem this
  · intro k hk
    unfold parse_env at hk
    rcases foldl_parse_step_keys _ _ k hk with hnil | h
    · simp [contains_key, dict_get] at hnil
    · exact h

/-- C9 counterexample: the malformed line `"  ?  "` is recorded with its
surrounding whitespace intact, not as the trimmed `"?"` the claim
describes. -/
theorem malformed_line_not_trimmed :
    (parse_env "  ?  ").invalid = [(1, "  ?  ")] ∧
    (1, "?") ∉ (parse_env "  ?  ").invalid := by
  exact ⟨rfl, by decide⟩

theorem malformed_line_recorded_untrimmed_witness :
    (1 + 0, String.mk (rstrip_nl "  ?  ".toList)) ∈ (parse_env "  ?  ").invalid :=
  (malformed_line_recorded_untrimmed "  ?  " 0 "  ?  ".toList (by decide)
      (by decide) (by decide) (by decide)).1

/-! ## Secret redaction of diff entries (C10) -/

/-- C10: for a secret `DiffEntry`, the redacted accessors map an absent
side to `none` (not the mask) and a present value to the fixed mask
`"***"`; `to_dict` exposes exactly these accessors, so absence stays
distinguishable from a redacted present value. -/
theorem redacted_accessors_preserve_absence (e : DiffEntry)
    (hs : e.secret = true) :
    (e.redacted_left = none ↔ e.left = none) ∧
    (e.redacted_right = none ↔ e.right = none) ∧
    (∀ v, e.left = some v → e.redacted_left = some "***") ∧
    (∀ v, e.right = some v → e.redacted_right = some "***") ∧
    e.to_dict.left = e.redacted_left ∧ e.to_dict.right = e.redacted_right := by
  have hL : e.redacted_left = redact e.left := by
    unfold DiffEntry.redacted_left
    rw [hs]
    simp
  have hR : e.redacted_right = redact e.right := by
    unfold DiffEntry.redacted_right
    rw [hs]
    simp
  refine ⟨?_, ?_, ?_, ?_, rfl, rfl⟩
  · rw [hL]
    cases e.left <;> simp [redact]
  · rw [hR]
    cases e.right <;> simp [redact]
  · intro v hv
    rw [hL, hv]
    rfl
  · intro v hv
    rw [hR, hv]
    rfl

theorem redacted_accessors_preserve_absence_witness :
    DiffEntry.redacted_left ⟨"A", DiffKind.missing, some "x", none, true⟩ =
        some "***" ∧
      DiffEntry.redacted_right ⟨"A", DiffKind.missing, some "x", none, true⟩ =
        none :=
  ⟨(redacted_accessors_preserve_absence
        ⟨"A", DiffKind.missing, some "x", none, true⟩ rfl).2.2.1 "x" rfl,
    (redacted_accessors_preserve_absence
        ⟨"A", DiffKind.missing, some "x", none, true⟩ rfl).2.1.mpr rfl⟩

end Envkeep
